import Mathlib

/-!
Shallow embedding of the adaptive strategy backtesting and portfolio
allocation engine (`backteste/` package: `backtest_engine.py`,
`strategy_evaluator.py`, `strategy_portfolio.py`, `adaptive_learning.py`).

Python floats are idealised as exact rationals (`ℚ`).  Where the source can
produce IEEE special values we model them explicitly:

* `Option ℚ` is used for values that can be NaN (`none` = NaN); the helper
  operations below propagate `none` the way IEEE arithmetic propagates NaN,
  and comparisons against NaN are `false`, as in Python/numpy.
* `XFloat` is used for the engine's metric results, which can be finite,
  `±inf`, NaN, or an irrational value `mean/std`-shaped expression.  The
  constructor `XFloat.expr m v` stands for the (in general irrational) real
  number determined by mean `m` and variance `v > 0` inside the producing
  function (`mean·√252/√v` for the Sharpe ratio, `mean/√v` for the
  risk-adjusted return); the claims below only ever inspect the guard
  branches, never the value of `expr`.
-/

namespace Neural

/-- Model of a numpy/Python float result: finite rational, `±inf`, NaN, or a
symbolic irrational value (see module docstring). -/
inductive XFloat where
  | fin : ℚ → XFloat
  | posinf : XFloat
  | neginf : XFloat
  | nan : XFloat
  | expr : ℚ → ℚ → XFloat
deriving DecidableEq, Repr

/-- NaN-propagating addition on possibly-NaN floats (`none` = NaN). -/
def oadd : Option ℚ → Option ℚ → Option ℚ
  | some a, some b => some (a + b)
  | _, _ => none

/-- NaN-propagating multiplication of two possibly-NaN floats. -/
def omul : Option ℚ → Option ℚ → Option ℚ
  | some a, some b => some (a * b)
  | _, _ => none

/-- Multiply a possibly-NaN float by a finite scalar. -/
def omulc (a : Option ℚ) (c : ℚ) : Option ℚ := a.map (fun x => x * c)

/-- Sum of a list of possibly-NaN floats (NaN-propagating, as in Python's
`sum`; the fold direction is immaterial since `oadd` is associative and
commutative with identity `some 0`). -/
def osum : List (Option ℚ) → Option ℚ
  | [] => some 0
  | a :: l => oadd a (osum l)

/-- Python's `min(a, b)` where `b` may be NaN: CPython returns `b` only when
`b < a` holds, and any comparison with NaN is false, so `min(a, NaN) = a`. -/
def pymin (a : ℚ) (b : Option ℚ) : Option ℚ :=
  match b with
  | none => some a
  | some x => some (min x a)

/-- `np.mean` of a rational list (`0/0 = 0` by the `ℚ` convention; the code
only takes means of nonempty lists on the paths modelled here). -/
def qmean (l : List ℚ) : ℚ := l.sum / l.length

/-- Sample variance, `ddof = 1` (square of `np.std(-, ddof=1)`). -/
def sampleVar (l : List ℚ) : ℚ :=
  (l.map (fun x => (x - qmean l) ^ 2)).sum / ((l.length : ℚ) - 1)

/-- Population variance, `ddof = 0` (square of `np.std(-)`). -/
def popVar (l : List ℚ) : ℚ :=
  (l.map (fun x => (x - qmean l) ^ 2)).sum / (l.length : ℚ)

/-! ## Backtest engine (`backtest_engine.py`)

A simulated trade is reduced to its realised profit-and-loss: entry/exit
time and price and the side are carried by the source `Dict` but never read
by the metric computations the claims are about. -/

/-- A closed simulated trade (`trades` entries of `run_backtest`). -/
structure Trade where
  pnl : ℚ
deriving DecidableEq, Repr

/-- `BacktestEngine.calculate_sharpe_ratio`.  The source computes
`np.mean(excess) / np.std(excess, ddof=1) * np.sqrt(252)` when
`len(returns) > 1`; with zero sample variance the standard deviation is `0`
and IEEE division gives `NaN` (mean `0`) or `±inf` (mean `≠ 0`). -/
def calculate_sharpe_ratio (returns : List ℚ) (risk_free_rate : ℚ) : XFloat :=
  if returns = [] then .fin 0
  else
    let excess := returns.map (fun r => r - risk_free_rate / 252)
    if returns.length > 1 then
      let m := qmean excess
      let v := sampleVar excess
      if v = 0 then
        (if m = 0 then .nan else if 0 < m then .posinf else .neginf)
      else if m = 0 then .fin 0
      else .expr m v
    else .fin 0

/-- Cumulative products `np.cumprod(1 + returns)`. -/
def cumprod (returns : List ℚ) : List ℚ :=
  ((returns.map (fun r => 1 + r)).scanl (fun a x => a * x) 1).tail

/-- `np.maximum.accumulate`. -/
def runningMax : List ℚ → List ℚ
  | [] => []
  | x :: xs => xs.scanl max x

/-- Minimum of a rational list (`min(...)` over a nonempty list; `0` is
returned for `[]`, a case the guarded caller never reaches). -/
def listMin : List ℚ → ℚ
  | [] => 0
  | x :: xs => xs.foldl min x

/-- `BacktestEngine.calculate_max_drawdown`. -/
def calculate_max_drawdown (returns : List ℚ) : ℚ :=
  if returns = [] then 0
  else
    let cumulative := cumprod returns
    let drawdowns := List.zipWith (fun c m => c / m - 1) cumulative (runningMax cumulative)
    |listMin drawdowns|

/-- `BacktestEngine.calculate_profit_factor`: `profits / losses` when the
loss sum is nonzero, else `float('inf')` — also for an empty trade list. -/
def calculate_profit_factor (trades : List Trade) : XFloat :=
  let profits := ((trades.filter (fun t => 0 < t.pnl)).map Trade.pnl).sum
  let losses := ((trades.filter (fun t => t.pnl < 0)).map (fun t => |t.pnl|)).sum
  if losses ≠ 0 then .fin (profits / losses) else .posinf

/-- `BacktestEngine.calculate_risk_adjusted_return`:
`np.mean(returns) / (np.std(returns) if np.std(returns) > 0 else 1)`. -/
def calculate_risk_adjusted_return (returns : List ℚ) : XFloat :=
  if returns = [] then .fin 0
  else
    let m := qmean returns
    let v := popVar returns
    if 0 < v then (if m = 0 then .fin 0 else .expr m v) else .fin m

/-- The five performance metric fields of a `BacktestResult`. -/
structure BacktestMetrics where
  sharpe_ratio : XFloat
  max_drawdown : ℚ
  win_rate : ℚ
  profit_factor : XFloat
  risk_adjusted_return : XFloat
deriving DecidableEq, Repr

/-- The metric block of `BacktestEngine.run_backtest` (lines 115–136): the
per-trade returns are the trade pnls normalised by the initial capital, the
win rate is `winning_trades / total_trades` guarded to `0` for no trades,
and the five metrics are computed by the `calculate_*` helpers above (with
the default annual risk-free rate of 2%). -/
def run_backtest_metrics (trades : List Trade) (initial_capital : ℚ) : BacktestMetrics :=
  let returns := trades.map (fun t => t.pnl / initial_capital)
  let winning := (trades.filter (fun t => 0 < t.pnl)).length
  { sharpe_ratio := calculate_sharpe_ratio returns (2 / 100)
    max_drawdown := calculate_max_drawdown returns
    win_rate := if 0 < trades.length then (winning : ℚ) / (trades.length : ℚ) else 0
    profit_factor := calculate_profit_factor trades
    risk_adjusted_return := calculate_risk_adjusted_return returns }

/-! ## Strategy evaluator (`strategy_evaluator.py`)

`is_strategy_declining` and `should_retire_strategy` only read the
`overall_score` of each `StrategyScore` in a strategy's history, so the
evaluator's `historical_scores` map is embedded as an association list from
strategy id to the chronological list of overall scores. -/

/-- The evaluator's per-strategy score history (`historical_scores`). -/
def EvalHistory : Type := List (String × List ℚ)

/-- `StrategyEvaluator.get_strategy_history`:
`self.historical_scores.get(strategy_id, [])`. -/
def get_strategy_history (ev : EvalHistory) (strategy_id : String) : List ℚ :=
  ((ev : List (String × List ℚ)).lookup strategy_id).getD []

/-- Slope of the degree-1 least-squares fit `np.polyfit(range(n), ys, 1)[0]`
against run index `0, 1, …, n−1`. -/
def lstsqSlope (ys : List ℚ) : ℚ :=
  let n : ℚ := ys.length
  let xs : List ℚ := (List.range ys.length).map (fun i => (i : ℚ))
  let sx := xs.sum
  let sy := ys.sum
  let sxx := (xs.map (fun x => x * x)).sum
  let sxy := ((xs.zip ys).map (fun p => p.1 * p.2)).sum
  (n * sxy - sx * sy) / (n * sxx - sx * sx)

/-- The last `k` elements of a list (`l[-k:]`). -/
def lastN (k : ℕ) (l : List ℚ) : List ℚ := l.drop (l.length - k)

/-- `StrategyEvaluator.is_strategy_declining(strategy_id, window=5)`. -/
def is_strategy_declining (ev : EvalHistory) (strategy_id : String) (window : ℕ) : Bool :=
  let history := get_strategy_history ev strategy_id
  if history.length < window then false
  else decide (lstsqSlope (lastN window history) < 0)

/-- `StrategyEvaluator.should_retire_strategy`. -/
def should_retire_strategy (ev : EvalHistory) (strategy_id : String) : Bool :=
  let history := get_strategy_history ev strategy_id
  if history = [] then false
  else
    let current_score := history.getLastD 0
    let conditions : List Bool :=
      [ decide (current_score < 3/10)
      , is_strategy_declining ev strategy_id 5
      , decide (3 ≤ history.length) && (lastN 3 history).all (fun s => decide (s < 2/5)) ]
    conditions.any (fun b => b)

/-! ## Strategy portfolio (`strategy_portfolio.py`)

`_optimize_weights` reads only the `risk_adjusted_return` and
`max_drawdown` entries of a score's `performance_metrics` dict (the
`returns` array it builds from `risk_adjusted_return` is in fact never used
afterwards), so the metrics dict is embedded as a structure with those two
fields.  Python `dict`s are embedded as association lists in insertion
order, with `dictOfList` reproducing the first-position/last-value
semantics of building a dict from a key-value sequence. -/

/-- The entries of `performance_metrics` read by the portfolio. -/
structure PerfMetrics where
  max_drawdown : ℚ
  risk_adjusted_return : ℚ
deriving DecidableEq, Repr

/-- `StrategyScore` as consumed by the portfolio: identifier, overall score
and the performance-metric snapshot (market adaptability, consistency and
timestamp are carried by the source dataclass but never read here). -/
structure StrategyScore where
  strategy_id : String
  overall_score : ℚ
  performance_metrics : PerfMetrics
deriving DecidableEq, Repr

/-- `StrategyAllocation` (the `last_update` timestamp is dropped). -/
structure StrategyAllocation where
  strategy_id : String
  weight : Option ℚ
  max_allocation : Option ℚ
  current_allocation : Option ℚ
  performance_metrics : PerfMetrics
deriving DecidableEq, Repr

/-- One entry of `historical_performance` (`_record_portfolio_state`'s
`state` dict, minus the timestamp; the per-allocation metrics snapshot is
reduced to the weights, which is all any claim observes). -/
structure PortfolioSnapshot where
  total_capital : Option ℚ
  allocated_capital : Option ℚ
  n_strategies : ℕ
  weights : List (String × Option ℚ)
deriving DecidableEq, Repr

/-- `StrategyPortfolio`'s mutable state. -/
structure StrategyPortfolio where
  initial_capital : ℚ
  current_capital : Option ℚ
  allocations : List (String × StrategyAllocation)
  historical_performance : List PortfolioSnapshot
  min_score_threshold : ℚ
deriving DecidableEq, Repr

/-- `StrategyPortfolio.__init__(initial_capital)`. -/
def mkPortfolio (initial_capital : ℚ) : StrategyPortfolio :=
  { initial_capital := initial_capital
    current_capital := some initial_capital
    allocations := []
    historical_performance := []
    min_score_threshold := 2/5 }

/-- Insert into a Python dict: overwrite in place if the key exists
(keeping its original position), else append. -/
def dictInsert {α : Type} (d : List (String × α)) (k : String) (v : α) : List (String × α) :=
  if (d.lookup k).isSome then
    d.map (fun p => if p.1 = k then (k, v) else p)
  else d ++ [(k, v)]

/-- Build a Python dict from a key-value sequence. -/
def dictOfList {α : Type} (l : List (String × α)) : List (String × α) :=
  l.foldl (fun d p => dictInsert d p.1 p.2) []

/-- `StrategyPortfolio._optimize_weights`.  The diagonal of the covariance
matrix is `max_drawdown²` (the flat 0.2 correlation only affects
off-diagonal entries), so the pre-normalisation weights
`1 / np.sqrt(np.diag(covariance))` are `1 / |max_drawdown|`.  When some
drawdown is `0`, numpy produces `inf` there (no epsilon floor exists), the
normalising sum is `inf`, and the normalised weights are `NaN` (`none`) for
the zero-drawdown strategies and `0` for the others (`finite/inf = 0`,
`inf/inf = NaN`).  The resulting `{strategy_id: weight}` dict collapses
duplicate ids, last value winning. -/
def optimize_weights (strategies : List StrategyScore) : List (String × Option ℚ) :=
  if strategies = [] then []
  else if strategies.any (fun s => decide (s.performance_metrics.max_drawdown = 0)) then
    dictOfList (strategies.map (fun s =>
      (s.strategy_id,
        if s.performance_metrics.max_drawdown = 0 then none else some 0)))
  else
    let total := (strategies.map (fun s => 1 / |s.performance_metrics.max_drawdown|)).sum
    dictOfList (strategies.map (fun s =>
      (s.strategy_id, some ((1 / |s.performance_metrics.max_drawdown|) / total))))

/-- `StrategyPortfolio._record_portfolio_state`. -/
def record_portfolio_state (p : StrategyPortfolio) : StrategyPortfolio :=
  let total_allocation := osum (p.allocations.map (fun pr => pr.2.current_allocation))
  { p with historical_performance :=
      p.historical_performance ++
        [{ total_capital := p.current_capital
           allocated_capital := total_allocation
           n_strategies := p.allocations.length
           weights := p.allocations.map (fun pr => (pr.1, pr.2.weight)) }] }

/-- `StrategyPortfolio.update_portfolio`.  `next(s for s in valid if
s.strategy_id == sid)` is total because every id emitted by
`_optimize_weights` comes from `valid`; the `.getD` default is never
reached. -/
def update_portfolio (p : StrategyPortfolio) (strategy_scores : List StrategyScore) :
    StrategyPortfolio :=
  let valid_strategies :=
    strategy_scores.filter (fun s => decide (p.min_score_threshold ≤ s.overall_score))
  if valid_strategies = [] then p
  else
    let weights := optimize_weights valid_strategies
    let new_allocations := weights.map (fun pr =>
      let score := (valid_strategies.find? (fun s => s.strategy_id = pr.1)).getD
        { strategy_id := pr.1, overall_score := 0,
          performance_metrics := { max_drawdown := 0, risk_adjusted_return := 0 } }
      (pr.1,
        { strategy_id := pr.1
          weight := pr.2
          max_allocation := pymin (1/4) (omulc pr.2 (3/2))
          current_allocation := omul p.current_capital pr.2
          performance_metrics := score.performance_metrics : StrategyAllocation }))
    let removed := p.allocations.filter (fun pr => (new_allocations.lookup pr.1).isNone)
    let capital := removed.foldl (fun c pr => oadd c pr.2.current_allocation) p.current_capital
    record_portfolio_state
      { p with current_capital := capital, allocations := new_allocations }

/-- `StrategyPortfolio.adjust_allocation`.  The `total_other_weight > 0`
test is false when the other-weight sum is NaN, exactly as in Python. -/
def adjust_allocation (p : StrategyPortfolio) (strategy_id : String) (new_weight : ℚ) :
    StrategyPortfolio :=
  match p.allocations.lookup strategy_id with
  | none => p
  | some _ =>
    let nw := min new_weight (1/4)
    let total_other :=
      osum ((p.allocations.filter (fun pr => pr.1 ≠ strategy_id)).map (fun pr => pr.2.weight))
    let allocs :=
      match total_other with
      | some t =>
        if 0 < t then
          let scale := (1 - nw) / t
          p.allocations.map (fun (pr : String × StrategyAllocation) =>
            if pr.1 = strategy_id then pr
            else (pr.1, { pr.2 with
              weight := omulc pr.2.weight scale
              current_allocation := omul p.current_capital (omulc pr.2.weight scale) }))
        else p.allocations
      | none => p.allocations
    let allocs2 := allocs.map (fun (pr : String × StrategyAllocation) =>
      if pr.1 = strategy_id then
        (pr.1, { pr.2 with
          weight := some nw
          current_allocation := omul p.current_capital (some nw) })
      else pr)
    record_portfolio_state { p with allocations := allocs2 }

/-- Sum of the weights of the current allocations. -/
def sumWeights (allocations : List (String × StrategyAllocation)) : Option ℚ :=
  osum (allocations.map (fun pr => pr.2.weight))

/-! ## Adaptive learning orchestrator (`adaptive_learning.py`)

For `get_strategy_recommendation` a live strategy object is reduced to its
id, the signal `generate_signal(symbol)` returns for the queried symbol,
and its `get_confidence` capability (`none` models a strategy object
without a `get_confidence` attribute, for which the source's unconditional
call raises `AttributeError`). -/

/-- A live strategy as observed by `get_strategy_recommendation`. -/
structure StratEntry where
  id : String
  signal : ℚ
  confidence : Option ℚ
deriving DecidableEq, Repr

/-- Recommendation actions. -/
inductive Action where
  | BUY
  | SELL
  | HOLD
deriving DecidableEq, Repr

/-- The result dict of `get_strategy_recommendation`, reduced to the
`action` and `confidence` entries (the confidence is `abs(weighted_signal)`
and can be NaN, hence `Option ℚ`). -/
structure Recommendation where
  action : Action
  confidence : Option ℚ
deriving DecidableEq, Repr

/-- The `for strategy_id, strategy in self.strategies.items()` loop of
`get_strategy_recommendation`: accumulates the `recommendations` entries
`(signal, weight, confidence)` in iteration order together with
`total_weight`, and raises (`Except.error`) at the first allocated,
non-zero-signal strategy without a `get_confidence` attribute. -/
def buildRecs (port : StrategyPortfolio) :
    List StratEntry → List (ℚ × Option ℚ × ℚ) → Option ℚ →
    Except Unit (List (ℚ × Option ℚ × ℚ) × Option ℚ)
  | [], recs, total => .ok (recs, total)
  | e :: rest, recs, total =>
    match port.allocations.lookup e.id with
    | none => buildRecs port rest recs total
    | some alloc =>
      if e.signal ≠ 0 then
        match e.confidence with
        | none => .error ()
        | some c =>
          buildRecs port rest (recs ++ [(e.signal, alloc.weight, c)])
            (oadd total alloc.weight)
      else buildRecs port rest recs total

/-- `AdaptiveLearningSystem.get_strategy_recommendation`.  The division
`sum(signal·weight·confidence) / total_weight` raises `ZeroDivisionError`
when `total_weight == 0` (caught by the `except` block, yielding
HOLD/0.0); a NaN `total_weight` compares false against `0` and produces a
NaN weighted signal, for which both threshold comparisons are false and
the reported confidence `abs(NaN)` is NaN. -/
def get_strategy_recommendation (strategies : List StratEntry) (port : StrategyPortfolio) :
    Recommendation :=
  match buildRecs port strategies [] (some 0) with
  | .error _ => { action := .HOLD, confidence := some 0 }
  | .ok (recs, total_weight) =>
    if recs = [] then { action := .HOLD, confidence := some 0 }
    else
      let numer := osum (recs.map (fun r => omul (omulc r.2.1 r.1) (some r.2.2)))
      match total_weight with
      | none => { action := .HOLD, confidence := none }
      | some t =>
        if t = 0 then { action := .HOLD, confidence := some 0 }
        else
          match numer with
          | none => { action := .HOLD, confidence := none }
          | some n =>
            let weighted_signal := n / t
            if 1/5 < weighted_signal then { action := .BUY, confidence := some |weighted_signal| }
            else if weighted_signal < -(1/5) then
              { action := .SELL, confidence := some |weighted_signal| }
            else { action := .HOLD, confidence := some |weighted_signal| }

/-- `AdaptiveLearningSystem` state: the registry of live strategies
(reduced to its ordered id set), the evaluator's `strategy_scores` map of
latest scores, and the portfolio. -/
structure ALSystem where
  strategies : List String
  strategy_scores : List (String × StrategyScore)
  portfolio : StrategyPortfolio
deriving DecidableEq, Repr

/-- `AdaptiveLearningSystem.update_portfolio`: forwards every cached latest
score with `overall_score >= 0.4` to the portfolio (the subsequent metric
logging does not mutate state). -/
def als_update_portfolio (s : ALSystem) : ALSystem :=
  let scores :=
    (s.strategy_scores.map Prod.snd).filter (fun sc => decide (2/5 ≤ sc.overall_score))
  { s with portfolio := update_portfolio s.portfolio scores }

/-- `AdaptiveLearningSystem.retire_strategy`: zero out the portfolio weight
if allocated, delete the registry entry, then refresh the portfolio.  The
evaluator's cached scores are never touched. -/
def retire_strategy (s : ALSystem) (strategy_id : String) : ALSystem :=
  if strategy_id ∈ s.strategies then
    let port :=
      if (s.portfolio.allocations.lookup strategy_id).isSome then
        adjust_allocation s.portfolio strategy_id 0
      else s.portfolio
    als_update_portfolio
      { strategies := s.strategies.erase strategy_id
        strategy_scores := s.strategy_scores
        portfolio := port }
  else s

/-! ## Helper lemmas -/

/-- The mean of a nonempty constant list is the constant. -/
theorem qmean_const {l : List ℚ} {c : ℚ} (hc : ∀ x ∈ l, x = c) (hne : l ≠ []) :
    qmean l = c := by
  have hsum : l.sum = l.length • c := List.sum_eq_card_nsmul l c hc
  have hlen : (l.length : ℚ) ≠ 0 := by
    simpa using (List.length_pos.mpr hne).ne'
  unfold qmean
  rw [hsum, nsmul_eq_mul]
  field_simp

/-- The sample variance of a constant list is `0`. -/
theorem sampleVar_const {l : List ℚ} {c : ℚ} (hc : ∀ x ∈ l, x = c) :
    sampleVar l = 0 := by
  rcases eq_or_ne l [] with h | h
  · subst h; simp [sampleVar, qmean]
  · have hq := qmean_const hc h
    unfold sampleVar
    rw [List.sum_eq_zero, zero_div]
    intro x hx
    rcases List.mem_map.mp hx with ⟨y, hy, rfl⟩
    rw [hc y hy, hq]
    ring

/-! ## Claim C3 -/

/-- C3 (counterexample): the claim says all five metrics are zero for a
`BacktestResult` with no trades, but `calculate_profit_factor` returns
`float('inf')` when the loss sum is zero — also for the empty trade list —
so the profit factor of a zero-trade backtest is `+∞`, not `0`. -/
theorem c3_counterexample :
    (run_backtest_metrics [] 100000).profit_factor = XFloat.posinf ∧
      XFloat.posinf ≠ XFloat.fin 0 := by
  exact ⟨rfl, by decide⟩

/-- C3 (amended): for a backtest with an empty trade list, the Sharpe
ratio, maximum drawdown, win rate and risk-adjusted return are all `0`,
while the profit factor is `+∞` (uncapped `float('inf')`, since the loss
sum is zero). -/
theorem c3_zero_trades_metrics (initial_capital : ℚ) (trades : List Trade)
    (h : trades = []) :
    (run_backtest_metrics trades initial_capital).sharpe_ratio = XFloat.fin 0 ∧
    (run_backtest_metrics trades initial_capital).max_drawdown = 0 ∧
    (run_backtest_metrics trades initial_capital).win_rate = 0 ∧
    (run_backtest_metrics trades initial_capital).risk_adjusted_return = XFloat.fin 0 ∧
    (run_backtest_metrics trades initial_capital).profit_factor = XFloat.posinf := by
  subst h
  exact ⟨rfl, rfl, rfl, rfl, rfl⟩

/-- C3 (witness): the amended statement evaluated at the empty trade list
with the engine's default initial capital. -/
theorem c3_zero_trades_metrics_witness :
    (run_backtest_metrics [] 100000).sharpe_ratio = XFloat.fin 0 ∧
    (run_backtest_metrics [] 100000).max_drawdown = 0 ∧
    (run_backtest_metrics [] 100000).win_rate = 0 ∧
    (run_backtest_metrics [] 100000).risk_adjusted_return = XFloat.fin 0 ∧
    (run_backtest_metrics [] 100000).profit_factor = XFloat.posinf :=
  c3_zero_trades_metrics 100000 [] rfl

/-! ## Claim C7 -/

/-- C7 (counterexample): the claim says `calculate_sharpe_ratio` returns
`0` for two or more identical returns, but for `[0.1, 0.1]` the sample
standard deviation is `0`, the excess-return mean is positive, and the
division yields `+∞`, not `0`. -/
theorem c7_counterexample :
    calculate_sharpe_ratio [1/10, 1/10] (2/100) = XFloat.posinf ∧
      XFloat.posinf ≠ XFloat.fin 0 := by
  constructor
  · norm_num [calculate_sharpe_ratio, qmean, sampleVar, List.cons_ne_nil]
  · decide

/-- C7 (amended): `calculate_sharpe_ratio` returns `0` for every input
with fewer than 2 returns; for 2 or more identical returns the sample
standard deviation is `0` and the code divides by it, producing a
non-finite IEEE value (`NaN` if the excess mean is zero, `±∞` otherwise)
rather than `0`. -/
theorem c7_sharpe_guards (returns : List ℚ) (risk_free_rate : ℚ) :
    (returns.length < 2 → calculate_sharpe_ratio returns risk_free_rate = XFloat.fin 0) ∧
    (2 ≤ returns.length → (∀ c, (∀ x ∈ returns, x = c) →
      calculate_sharpe_ratio returns risk_free_rate ≠ XFloat.fin 0 ∧
        (calculate_sharpe_ratio returns risk_free_rate = XFloat.nan ∨
         calculate_sharpe_ratio returns risk_free_rate = XFloat.posinf ∨
         calculate_sharpe_ratio returns risk_free_rate = XFloat.neginf))) := by
  constructor
  · intro hlt
    match returns with
    | [] => rfl
    | [a] => simp [calculate_sharpe_ratio]
    | a :: b :: rest => simp at hlt; omega
  · intro hlen c hc
    have hne : returns ≠ [] := by
      intro h; subst h; simp at hlen
    have hvar : sampleVar (returns.map (fun r => r - risk_free_rate / 252)) = 0 := by
      apply sampleVar_const (c := c - risk_free_rate / 252)
      intro x hx
      rcases List.mem_map.mp hx with ⟨y, hy, rfl⟩
      rw [hc y hy]
    have hgt : returns.length > 1 := by omega
    unfold calculate_sharpe_ratio
    rw [if_neg hne, if_pos hgt, if_pos hvar]
    rcases lt_trichotomy (qmean (returns.map (fun r => r - risk_free_rate / 252))) 0 with
      h | h | h
    · rw [if_neg (by exact h.ne), if_neg (by exact not_lt_of_lt h)]
      exact ⟨by decide, Or.inr (Or.inr rfl)⟩
    · rw [if_pos h]
      exact ⟨by decide, Or.inl rfl⟩
    · rw [if_neg (by exact h.ne'), if_pos h]
      exact ⟨by decide, Or.inr (Or.inl rfl)⟩

/-- C7 (witness): the amended statement at `[0.1, 0.1]` with the default
2% risk-free rate: the guard case and the zero-variance case both
evaluated concretely. -/
theorem c7_sharpe_guards_witness :
    calculate_sharpe_ratio [1/10] (2/100) = XFloat.fin 0 ∧
      calculate_sharpe_ratio [1/10, 1/10] (2/100) ≠ XFloat.fin 0 :=
  ⟨(c7_sharpe_guards [1/10] (2/100)).1 (by norm_num),
   ((c7_sharpe_guards [1/10, 1/10] (2/100)).2 (by norm_num) (1/10) (by norm_num)).1⟩

/-! ## Claim C6 -/

/-- C6 (confirmed): `should_retire_strategy(id)` is true iff the score
history of `id` is nonempty and at least one of the three retirement
criteria holds: latest overall score `< 0.3`; declining (history length
`≥ 5` and negative least-squares slope over the last 5 overall scores); or
history length `≥ 3` with the last 3 overall scores all `< 0.4`.  In
particular it is false whenever the history is empty. -/
theorem c6_should_retire (ev : EvalHistory) (strategy_id : String) :
    should_retire_strategy ev strategy_id = true ↔
      (get_strategy_history ev strategy_id ≠ [] ∧
        ((get_strategy_history ev strategy_id).getLastD 0 < 3/10 ∨
         (5 ≤ (get_strategy_history ev strategy_id).length ∧
           lstsqSlope (lastN 5 (get_strategy_history ev strategy_id)) < 0) ∨
         (3 ≤ (get_strategy_history ev strategy_id).length ∧
           ∀ s ∈ lastN 3 (get_strategy_history ev strategy_id), s < 2/5))) := by
  unfold should_retire_strategy is_strategy_declining
  by_cases hne : get_strategy_history ev strategy_id = []
  · simp [hne]
  · rw [if_neg hne]
    by_cases hlen : (get_strategy_history ev strategy_id).length < 5
    · have h5 : ¬ (5 ≤ (get_strategy_history ev strategy_id).length) := by omega
      rw [if_pos hlen]
      simp only [List.any_cons, List.any_nil, Bool.or_false, Bool.or_eq_true,
        decide_eq_true_eq, Bool.and_eq_true, List.all_eq_true, Bool.false_eq_true,
        false_or, hne, ne_eq, not_false_eq_true, true_and, h5, false_and, or_false]
    · have h5 : 5 ≤ (get_strategy_history ev strategy_id).length := by omega
      rw [if_neg hlen]
      simp only [List.any_cons, List.any_nil, Bool.or_false, Bool.or_eq_true,
        decide_eq_true_eq, Bool.and_eq_true, List.all_eq_true, hne, ne_eq,
        not_false_eq_true, true_and, h5]

/-! ## Claim C5 -/

/-- C5 (confirmed): `update_portfolio` with a score list in which no score
reaches the 0.4 minimum threshold (in particular the empty list) is a
strict no-op: the entire portfolio state — allocation map, snapshot
history, capital — is returned unchanged. -/
theorem c5_update_portfolio_noop (p : StrategyPortfolio) (scores : List StrategyScore)
    (hthr : p.min_score_threshold = 2/5)
    (h : ∀ s ∈ scores, s.overall_score < 2/5) :
    update_portfolio p scores = p := by
  have hfil :
      scores.filter (fun s => decide (p.min_score_threshold ≤ s.overall_score)) = [] := by
    rw [List.filter_eq_nil_iff]
    intro s hs
    simp only [decide_eq_true_eq, not_le, hthr]
    exact h s hs
  simp [update_portfolio, hfil]

/-- C5 (witness): a single below-threshold score (0.2 < 0.4) leaves a fresh
portfolio exactly as it was — and the empty score list trivially so. -/
theorem c5_update_portfolio_noop_witness :
    update_portfolio (mkPortfolio 1000000)
        [{ strategy_id := "A", overall_score := 1/5,
           performance_metrics := { max_drawdown := 1/10, risk_adjusted_return := 1/5 } }] =
      mkPortfolio 1000000 ∧
    update_portfolio (mkPortfolio 1000000) [] = mkPortfolio 1000000 := by
  constructor
  · exact c5_update_portfolio_noop _ _ rfl (by intro s hs; simp only [List.mem_singleton] at hs; subst hs; norm_num)
  · exact c5_update_portfolio_noop _ _ rfl (by simp)

/-! ### Option-arithmetic and dict lemmas -/

/-- A non-NaN `oadd` result forces both operands to be non-NaN. -/
theorem oadd_eq_some {a b : Option ℚ} {t : ℚ} (h : oadd a b = some t) :
    ∃ x y, a = some x ∧ b = some y ∧ t = x + y := by
  cases a with
  | none => simp [oadd] at h
  | some x =>
    cases b with
    | none => simp [oadd] at h
    | some y =>
      refine ⟨x, y, rfl, rfl, ?_⟩
      simpa [oadd] using h.symm

/-- `osum` over a list of finite values is the finite sum. -/
theorem osum_map_some {α : Type} (l : List α) (f : α → ℚ) :
    osum (l.map (fun x => some (f x))) = some ((l.map f).sum) := by
  induction l with
  | nil => rfl
  | cons a l ih => simp [osum, oadd, ih]

/-- Scaling distributes over `osum` (NaN-propagating on both sides). -/
theorem osum_map_omulc (l : List (Option ℚ)) (c : ℚ) :
    osum (l.map (fun x => omulc x c)) = omulc (osum l) c := by
  induction l with
  | nil => simp [osum, omulc]
  | cons a l ih =>
    cases a with
    | none => simp [osum, oadd, omulc]
    | some x =>
      rw [List.map_cons, osum, osum, ih]
      cases hs : osum l with
      | none => simp [oadd, omulc]
      | some s => simp [oadd, omulc]; ring

/-- Inserting a fresh key into a dict appends it. -/
theorem dictInsert_of_lookup_none {α : Type} {d : List (String × α)} {k : String} {v : α}
    (h : d.lookup k = none) : dictInsert d k v = d ++ [(k, v)] := by
  unfold dictInsert
  rw [h]
  simp

/-- Building a dict from pairs with pairwise-distinct keys appends them in
order. -/
theorem foldl_dictInsert_eq_append {α : Type} :
    ∀ (l acc : List (String × α)),
      (acc.map Prod.fst ++ l.map Prod.fst).Nodup →
      l.foldl (fun d p => dictInsert d p.1 p.2) acc = acc ++ l
  | [], acc, _ => by simp
  | p :: l, acc, h => by
    have hmem : p.1 ∉ acc.map Prod.fst := by
      rw [List.map_cons, List.nodup_append] at h
      exact fun hc => h.2.2 hc (List.mem_cons_self _ _)
    have hlook : acc.lookup p.1 = none := by
      rw [List.lookup_eq_none_iff]
      intro q hq
      simp only [bne_iff_ne, ne_eq]
      exact fun he => hmem (he ▸ List.mem_map_of_mem Prod.fst hq)
    have h' : ((acc ++ [p]).map Prod.fst ++ l.map Prod.fst).Nodup := by
      simpa using h
    rw [List.foldl_cons, dictInsert_of_lookup_none hlook,
      foldl_dictInsert_eq_append l (acc ++ [p]) h']
    simp

/-- A dict built from pairs with pairwise-distinct keys is the pair list
itself. -/
theorem dictOfList_eq_self {α : Type} (l : List (String × α))
    (h : (l.map Prod.fst).Nodup) : dictOfList l = l := by
  simpa [dictOfList] using foldl_dictInsert_eq_append l [] (by simpa using h)

/-- Every entry of a built dict is one of the supplied pairs. -/
theorem mem_foldl_dictInsert {α : Type} (P : String × α → Prop) :
    ∀ (l acc : List (String × α)), (∀ pr ∈ acc, P pr) → (∀ pr ∈ l, P pr) →
      ∀ pr ∈ l.foldl (fun d p => dictInsert d p.1 p.2) acc, P pr
  | [], _, hacc, _, pr, hpr => hacc pr hpr
  | p :: l, acc, hacc, hl, pr, hpr => by
    refine mem_foldl_dictInsert P l (dictInsert acc p.1 p.2) ?_
      (fun q hq => hl q (List.mem_cons_of_mem _ hq)) pr hpr
    intro q hq
    unfold dictInsert at hq
    by_cases hs : (acc.lookup p.1).isSome
    · rw [if_pos hs] at hq
      rcases List.mem_map.mp hq with ⟨r, hr, rfl⟩
      by_cases he : r.1 = p.1
      · rw [if_pos he]
        exact hl p (List.mem_cons_self _ _)
      · rw [if_neg he]
        exact hacc r hr
    · rw [if_neg hs] at hq
      rcases List.mem_append.mp hq with h1 | h1
      · exact hacc q h1
      · rcases List.mem_singleton.mp h1 with rfl
        exact hl p (List.mem_cons_self _ _)

/-- Every entry of a built dict is one of the supplied pairs. -/
theorem mem_dictOfList {α : Type} {l : List (String × α)} {pr : String × α}
    (h : pr ∈ dictOfList l) : pr ∈ l :=
  mem_foldl_dictInsert (· ∈ l) l [] (by simp) (fun _ hq => hq) pr h

/-! ### `_optimize_weights` lemmas -/

/-- The normalising sum of inverse absolute drawdowns is positive for a
nonempty strategy list with nonzero drawdowns. -/
theorem optimize_total_pos (l : List StrategyScore) (hne : l ≠ [])
    (hd : ∀ s ∈ l, s.performance_metrics.max_drawdown ≠ 0) :
    0 < (l.map (fun s => 1 / |s.performance_metrics.max_drawdown|)).sum := by
  apply List.sum_pos
  · intro x hx
    rcases List.mem_map.mp hx with ⟨s, hs, rfl⟩
    exact one_div_pos.mpr (abs_pos.mpr (hd s hs))
  · simpa using hne

/-- With every drawdown nonzero, `_optimize_weights` is the normalised
inverse-absolute-drawdown dict. -/
theorem optimize_weights_clean (l : List StrategyScore) (hne : l ≠ [])
    (hd : ∀ s ∈ l, s.performance_metrics.max_drawdown ≠ 0) :
    optimize_weights l = dictOfList (l.map (fun s => (s.strategy_id,
      some ((1 / |s.performance_metrics.max_drawdown|) /
        (l.map (fun s => 1 / |s.performance_metrics.max_drawdown|)).sum)))) := by
  unfold optimize_weights
  rw [if_neg hne, if_neg]
  simp only [List.any_eq_true, decide_eq_true_eq, not_exists]
  intro s hs
  exact hd s hs.1 hs.2

/-- Every finite weight emitted by `_optimize_weights` is nonnegative. -/
theorem optimize_weights_nonneg (l : List StrategyScore) :
    ∀ pr ∈ optimize_weights l, ∀ w, pr.2 = some w → 0 ≤ w := by
  intro pr hpr w hw
  unfold optimize_weights at hpr
  by_cases hne : l = []
  · rw [if_pos hne] at hpr
    simp at hpr
  · rw [if_neg hne] at hpr
    by_cases hany :
        l.any (fun s => decide (s.performance_metrics.max_drawdown = 0)) = true
    · rw [if_pos hany] at hpr
      rcases List.mem_map.mp (mem_dictOfList hpr) with ⟨s, hs, rfl⟩
      by_cases h0 : s.performance_metrics.max_drawdown = 0
      · rw [if_pos h0] at hw
        cases hw
      · rw [if_neg h0] at hw
        cases hw
        exact le_refl 0
    · rw [if_neg hany] at hpr
      rcases List.mem_map.mp (mem_dictOfList hpr) with ⟨s, hs, rfl⟩
      have hd : ∀ s' ∈ l, s'.performance_metrics.max_drawdown ≠ 0 := by
        simpa [List.any_eq_true] using hany
      cases hw
      exact le_of_lt (div_pos (one_div_pos.mpr (abs_pos.mpr (hd s hs)))
        (optimize_total_pos l hne hd))

/-- Summing the post-`adjust_allocation` weights: the target strategy's
weight becomes `nw` and each other weight is scaled, so when the target is
present with a unique key and the other weights sum to the finite `t`, the
new sum is `nw + t·scale`. -/
theorem osum_weights_adjust (sid : String) (nw scale : ℚ) :
    ∀ (l : List (String × StrategyAllocation)) (t : ℚ),
      (l.map Prod.fst).Nodup →
      (∃ pr ∈ l, pr.1 = sid) →
      osum ((l.filter (fun pr => pr.1 ≠ sid)).map (fun pr => pr.2.weight)) = some t →
      osum (l.map (fun pr => if pr.1 = sid then some nw else omulc pr.2.weight scale)) =
        some (nw + t * scale)
  | [], t, _, hex, _ => by simp at hex
  | p :: l, t, hnd, hex, hsum => by
    rw [List.map_cons, List.nodup_cons] at hnd
    by_cases hp : p.1 = sid
    · have hkeys : ∀ q ∈ l, q.1 ≠ sid := by
        intro q hq he
        exact hnd.1 (hp ▸ he ▸ List.mem_map_of_mem Prod.fst hq)
      have hfl : (p :: l).filter (fun pr => pr.1 ≠ sid) = l := by
        rw [List.filter_cons_of_neg (by simpa using hp), List.filter_eq_self]
        intro q hq
        simpa using hkeys q hq
      rw [hfl] at hsum
      have hmap : l.map (fun pr => if pr.1 = sid then some nw else omulc pr.2.weight scale)
          = l.map (fun pr => omulc pr.2.weight scale) := by
        apply List.map_congr_left
        intro q hq
        rw [if_neg (hkeys q hq)]
      rw [List.map_cons, if_pos hp, osum, hmap]
      have : osum (l.map (fun pr => omulc pr.2.weight scale)) = some (t * scale) := by
        have h2 : l.map (fun pr => omulc pr.2.weight scale)
            = (l.map (fun pr => pr.2.weight)).map (fun x => omulc x scale) := by
          rw [List.map_map]
          rfl
        rw [h2, osum_map_omulc, hsum]
        rfl
      rw [this]
      simp [oadd]
    · have hfl : (p :: l).filter (fun pr => pr.1 ≠ sid)
          = p :: l.filter (fun pr => pr.1 ≠ sid) := by
        rw [List.filter_cons_of_pos (by simpa using hp)]
      rw [hfl, List.map_cons, osum] at hsum
      rcases oadd_eq_some hsum with ⟨x, y, hx, hy, rfl⟩
      have hex' : ∃ pr ∈ l, pr.1 = sid := by
        rcases hex with ⟨q, hq, hqs⟩
        rcases List.mem_cons.mp hq with rfl | hq'
        · exact absurd hqs hp
        · exact ⟨q, hq', hqs⟩
      rw [List.map_cons, if_neg hp, osum,
        osum_weights_adjust sid nw scale l y hnd.2 hex' hy, hx]
      simp only [omulc, Option.map_some', oadd, Option.some_inj]
      ring

/-- After a non-no-op `update_portfolio`, the allocation weights are
exactly the optimizer's weights. -/
theorem update_portfolio_weight_map (p : StrategyPortfolio) (scores : List StrategyScore)
    (hne : scores.filter (fun s => decide (p.min_score_threshold ≤ s.overall_score)) ≠ []) :
    (update_portfolio p scores).allocations.map (fun pr => pr.2.weight) =
      (optimize_weights
        (scores.filter (fun s => decide (p.min_score_threshold ≤ s.overall_score)))).map
          Prod.snd := by
  simp only [update_portfolio]
  rw [if_neg hne]
  simp only [record_portfolio_state, List.map_map]
  exact List.map_congr_left (fun pr _ => rfl)

/-! ## Claim C1 -/

/-- C1 (amended): the weights sum to exactly 1 (hence within 1e-6) after
every `update_portfolio` call whose qualifying set is nonempty, has
pairwise-distinct strategy ids and only nonzero drawdowns, and after every
`adjust_allocation` call on an allocated strategy whose *other* allocations
have a finite positive total weight.  When the portfolio holds exactly one
strategy, however, `adjust_allocation` makes the total weight
`min(new_weight, 0.25)`, which is not 1 for any `new_weight < 1` (no
rescaling happens because the other-weight total is 0). -/
theorem c1_sum_weights :
    (∀ (p : StrategyPortfolio) (scores : List StrategyScore),
      scores.filter (fun s => decide (p.min_score_threshold ≤ s.overall_score)) ≠ [] →
      (∀ s ∈ scores.filter (fun s => decide (p.min_score_threshold ≤ s.overall_score)),
        s.performance_metrics.max_drawdown ≠ 0) →
      ((scores.filter (fun s => decide (p.min_score_threshold ≤ s.overall_score))).map
        StrategyScore.strategy_id).Nodup →
      sumWeights (update_portfolio p scores).allocations = some 1) ∧
    (∀ (p : StrategyPortfolio) (sid : String) (nw t : ℚ),
      (p.allocations.lookup sid).isSome →
      (p.allocations.map Prod.fst).Nodup →
      osum ((p.allocations.filter (fun pr => pr.1 ≠ sid)).map (fun pr => pr.2.weight)) =
        some t →
      0 < t →
      sumWeights (adjust_allocation p sid nw).allocations = some 1) ∧
    (∀ (p : StrategyPortfolio) (sid : String) (a : StrategyAllocation) (nw : ℚ),
      p.allocations = [(sid, a)] →
      sumWeights (adjust_allocation p sid nw).allocations = some (min nw (1/4))) := by
  refine ⟨?_, ?_, ?_⟩
  · intro p scores hne hd hnodup
    have hT := optimize_total_pos _ hne hd
    have hkeys : (((scores.filter
        (fun s => decide (p.min_score_threshold ≤ s.overall_score))).map
          (fun s => (s.strategy_id,
            some ((1 / |s.performance_metrics.max_drawdown|) /
              ((scores.filter (fun s => decide (p.min_score_threshold ≤ s.overall_score))).map
                (fun s => 1 / |s.performance_metrics.max_drawdown|)).sum)))).map
          Prod.fst).Nodup := by
      simpa [List.map_map, Function.comp_def] using hnodup
    have h1 : (optimize_weights (scores.filter
        (fun s => decide (p.min_score_threshold ≤ s.overall_score)))).map Prod.snd =
        (scores.filter (fun s => decide (p.min_score_threshold ≤ s.overall_score))).map
          (fun s => some ((1 / |s.performance_metrics.max_drawdown|) /
            ((scores.filter (fun s => decide (p.min_score_threshold ≤ s.overall_score))).map
              (fun s => 1 / |s.performance_metrics.max_drawdown|)).sum)) := by
      rw [optimize_weights_clean _ hne hd, dictOfList_eq_self _ hkeys, List.map_map]
      exact List.map_congr_left (fun s _ => rfl)
    rw [sumWeights, update_portfolio_weight_map p scores hne, h1, osum_map_some,
      Option.some_inj]
    simp only [div_eq_mul_inv, List.sum_map_mul_right]
    exact mul_inv_cancel₀ hT.ne'
  · intro p sid nw t hsome hnodup hto hpos
    obtain ⟨a, ha⟩ := Option.isSome_iff_exists.mp hsome
    have hex : ∃ pr ∈ p.allocations, pr.1 = sid := by
      rcases List.lookup_isSome_iff.mp hsome with ⟨pr, hpr, he⟩
      exact ⟨pr, hpr, (beq_iff_eq.mp he).symm⟩
    simp only [adjust_allocation, ha, hto]
    rw [if_pos hpos]
    simp only [record_portfolio_state, sumWeights, List.map_map]
    refine Eq.trans (congrArg osum (List.map_congr_left (fun pr _ => ?_)))
      (Eq.trans (osum_weights_adjust sid (min nw (1/4)) ((1 - min nw (1/4)) / t)
        p.allocations t hnodup hex hto) ?_)
    · by_cases hpr : pr.1 = sid <;> simp [hpr]
    · rw [Option.some_inj]
      field_simp
  · intro p sid a nw hallocs
    simp [adjust_allocation, hallocs, record_portfolio_state, sumWeights, osum, oadd,
      omul, omulc]

/-- Performance metrics used by the concrete instances below: 10% max
drawdown, 0.2 risk-adjusted return. -/
def sampleMetrics : PerfMetrics := { max_drawdown := 1/10, risk_adjusted_return := 1/5 }

/-- A qualifying score (0.5 ≥ 0.4) for strategy "A". -/
def scoreA : StrategyScore :=
  { strategy_id := "A", overall_score := 1/2, performance_metrics := sampleMetrics }

/-- A qualifying score (0.5 ≥ 0.4) for strategy "B". -/
def scoreB : StrategyScore :=
  { strategy_id := "B", overall_score := 1/2, performance_metrics := sampleMetrics }

/-- A portfolio reached from a fresh `StrategyPortfolio(1000000)` by one
`update_portfolio` call with the single qualifying score `scoreA`; it holds
exactly one strategy, "A", with weight 1. -/
def pOne : StrategyPortfolio := update_portfolio (mkPortfolio 1000000) [scoreA]

/-- C1 (counterexample): the claim includes the case of a portfolio holding
exactly one strategy.  In the reachable state `pOne` (one `update_portfolio`
call, one allocation "A" with weight 1), the call
`adjust_allocation("A", 0.5)` leaves total weight `min(0.5, 0.25) = 0.25`:
no other strategies exist to rescale, so the weights sum to 1/4, which is
not within 1e-6 of 1. -/
theorem c1_counterexample :
    sumWeights (adjust_allocation pOne "A" (1/2)).allocations = some (1/4) ∧
      ¬ |(1/4 : ℚ) - 1| ≤ 1/1000000 := by
  constructor
  · norm_num [pOne, scoreA, sampleMetrics, update_portfolio, optimize_weights, dictOfList,
      dictInsert, record_portfolio_state, adjust_allocation, sumWeights, osum, oadd, omul,
      omulc, pymin, mkPortfolio, List.lookup, List.filter, List.find?]
  · rw [abs_of_nonpos (by norm_num)]
    norm_num

/-- C1 (witness): the amended statement's `update_portfolio` part at a
fresh portfolio with the two qualifying scores `scoreA`, `scoreB` (equal
nonzero drawdowns, distinct ids): the weights sum to exactly 1. -/
theorem c1_sum_weights_witness :
    sumWeights (update_portfolio (mkPortfolio 1000000) [scoreA, scoreB]).allocations =
      some 1 := by
  apply c1_sum_weights.1 (mkPortfolio 1000000) [scoreA, scoreB]
  · norm_num [scoreA, scoreB, sampleMetrics, mkPortfolio, List.filter]
    exact List.cons_ne_nil _ _
  · intro s hs
    simp only [mkPortfolio, scoreA, scoreB, sampleMetrics, List.filter] at hs
    norm_num at hs
    rcases hs with rfl | rfl <;> norm_num [sampleMetrics]
  · norm_num [scoreA, scoreB, sampleMetrics, mkPortfolio, List.filter]
    decide

/-! ## Claim C2 -/

/-- C2 (counterexample): with two qualifying strategies of equal nonzero
drawdown, `update_portfolio` assigns each the weight 1/2 and
`max_allocation = min(0.25, 0.75) = 0.25`, so the invariant
`weight ≤ 0.25 ∧ weight ≤ max_allocation` fails (1/2 > 1/4). -/
theorem c2_counterexample :
    (update_portfolio (mkPortfolio 1000000) [scoreA, scoreB]).allocations.map
        (fun pr => (pr.1, pr.2.weight, pr.2.max_allocation))
      = [("A", some (1/2), some (1/4)), ("B", some (1/2), some (1/4))] ∧
      ¬ ((1:ℚ)/2 ≤ 1/4) := by
  constructor
  · have hne : ([scoreA, scoreB].filter
        (fun s => decide ((mkPortfolio 1000000).min_score_threshold ≤ s.overall_score))) ≠ [] := by
      norm_num [scoreA, scoreB, mkPortfolio, List.filter]
      exact List.cons_ne_nil _ _
    have hAB : ("A" : String) ≠ "B" := by decide
    have hBA : ("B" : String) ≠ "A" := by decide
    simp only [update_portfolio]
    rw [if_neg hne]
    norm_num [scoreA, scoreB, sampleMetrics, optimize_weights, dictOfList, dictInsert,
      record_portfolio_state, osum, oadd, omul, omulc, pymin, mkPortfolio, List.lookup,
      List.filter, List.find?, beq_eq_decide, List.cons_ne_nil, hAB, hBA]
    rw [show |(1:ℚ)/10| = 1/10 from by norm_num]
    norm_num
  · norm_num

/-- C2 (amended): `adjust_allocation` does cap the adjusted strategy's
weight at `min(new_weight, 0.25) ≤ 0.25`, but `update_portfolio` performs
no clamping: each fresh allocation's finite weight `w` is only guaranteed
nonnegative, its `max_allocation` is `min(1.5·w, 0.25)`, and
`w ≤ max_allocation` holds iff `w ≤ 0.25` — which fails whenever fewer
than four equally-risky strategies qualify (see the counterexample). -/
theorem c2_weight_caps :
    (∀ (p : StrategyPortfolio) (sid : String) (nw : ℚ),
      (p.allocations.lookup sid).isSome →
      ∀ pr ∈ (adjust_allocation p sid nw).allocations, pr.1 = sid →
        pr.2.weight = some (min nw (1/4)) ∧ min nw (1/4) ≤ 1/4) ∧
    (∀ (p : StrategyPortfolio) (scores : List StrategyScore),
      scores.filter (fun s => decide (p.min_score_threshold ≤ s.overall_score)) ≠ [] →
      ∀ pr ∈ (update_portfolio p scores).allocations, ∀ w, pr.2.weight = some w →
        0 ≤ w ∧ ∃ m, pr.2.max_allocation = some m ∧ (w ≤ m ↔ w ≤ 1/4)) := by
  constructor
  · intro p sid nw hsome pr hpr hkey
    obtain ⟨a, ha⟩ := Option.isSome_iff_exists.mp hsome
    simp only [adjust_allocation, ha, record_portfolio_state] at hpr
    rcases List.mem_map.mp hpr with ⟨q, hq, rfl⟩
    by_cases hq1 : q.1 = sid
    · rw [if_pos hq1]
      exact ⟨rfl, min_le_right _ _⟩
    · rw [if_neg hq1] at hkey ⊢
      exact absurd hkey hq1
  · intro p scores hne pr hpr w hw
    simp only [update_portfolio] at hpr
    rw [if_neg hne] at hpr
    simp only [record_portfolio_state] at hpr
    rcases List.mem_map.mp hpr with ⟨x, hx, rfl⟩
    dsimp only at hw ⊢
    have h0 : 0 ≤ w := optimize_weights_nonneg _ x hx w hw
    refine ⟨h0, ?_⟩
    rw [hw]
    refine ⟨min (w * (3/2)) (1/4), by simp [pymin, omulc], ?_⟩
    constructor
    · exact fun h => le_trans h (min_le_right _ _)
    · exact fun h => le_min (by linarith) h

/-- The allocation of "A" after `adjust_allocation(pOne, "A", 0.3)`:
weight capped to 1/4 of the 1000000 capital. -/
def allocA : StrategyAllocation :=
  { strategy_id := "A", weight := some (1/4), max_allocation := some (1/4),
    current_allocation := some 250000, performance_metrics := sampleMetrics }

/-- C2 (witness): the amended statement's `adjust_allocation` part at the
reachable single-strategy portfolio `pOne` with requested weight 0.3: the
stored weight is `min(0.3, 0.25) = 0.25 ≤ 0.25`. -/
theorem c2_weight_caps_witness :
    (("A", allocA) : String × StrategyAllocation).2.weight = some (min (3/10) (1/4)) ∧
      min (3/10) (1/4) ≤ (1/4 : ℚ) := by
  have hsome : ((pOne).allocations.lookup "A").isSome := by
    norm_num [pOne, scoreA, sampleMetrics, update_portfolio, optimize_weights, dictOfList,
      dictInsert, record_portfolio_state, osum, oadd, omul, omulc, pymin, mkPortfolio,
      List.lookup, List.filter, List.find?]
  have hlist : (adjust_allocation pOne "A" (3/10)).allocations = [("A", allocA)] := by
    norm_num [pOne, scoreA, sampleMetrics, allocA, update_portfolio, optimize_weights,
      dictOfList, dictInsert, record_portfolio_state, adjust_allocation, osum, oadd, omul,
      omulc, pymin, mkPortfolio, List.lookup, List.filter, List.find?]
  exact c2_weight_caps.1 pOne "A" (3/10) hsome ("A", allocA)
    (hlist ▸ List.mem_singleton.mpr rfl) rfl

/-! ## Claim C4 -/

/-- A qualifying-or-not score with the given overall score and drawdown. -/
def scoreWith (sid : String) (q d : ℚ) : StrategyScore :=
  { strategy_id := sid, overall_score := q,
    performance_metrics := { max_drawdown := d, risk_adjusted_return := 1/5 } }

/-- C4 (counterexample): with three qualifying scores whose `max_drawdown`
is 0, no epsilon floor exists: `1/√0 = inf` for every strategy, the
normalising sum is `inf`, and every normalised weight is `inf/inf = NaN`
(`none`) — not `1/3`. -/
theorem c4_counterexample :
    (update_portfolio (mkPortfolio 1000000)
        [scoreWith "A" (1/2) 0, scoreWith "B" (1/2) 0, scoreWith "C" (1/2) 0]).allocations.map
        (fun pr => (pr.1, pr.2.weight))
      = [("A", (none : Option ℚ)), ("B", none), ("C", none)] ∧
      (none : Option ℚ) ≠ some (1/3) := by
  constructor
  · have hne : ([scoreWith "A" (1/2) 0, scoreWith "B" (1/2) 0, scoreWith "C" (1/2) 0].filter
        (fun s => decide ((mkPortfolio 1000000).min_score_threshold ≤ s.overall_score))) ≠ [] := by
      norm_num [scoreWith, mkPortfolio, List.filter]
      exact List.cons_ne_nil _ _
    have hAB : ("A" : String) ≠ "B" := by decide
    have hBA : ("B" : String) ≠ "A" := by decide
    have hAC : ("A" : String) ≠ "C" := by decide
    have hCA : ("C" : String) ≠ "A" := by decide
    have hBC : ("B" : String) ≠ "C" := by decide
    have hCB : ("C" : String) ≠ "B" := by decide
    simp only [update_portfolio]
    rw [if_neg hne]
    norm_num [scoreWith, optimize_weights, dictOfList, dictInsert, record_portfolio_state,
      osum, oadd, omul, omulc, pymin, mkPortfolio, List.lookup, List.filter, List.find?,
      beq_eq_decide, List.cons_ne_nil, hAB, hBA, hAC, hCA, hBC, hCB]
  · simp

/-- C4 (amended): `_optimize_weights` has no epsilon floor — three
qualifying strategies with zero drawdown get NaN weights (see the
counterexample) — but for three strategies with any *equal nonzero*
drawdown the equal-risk weighting does yield weights exactly
[1/3, 1/3, 1/3]. -/
theorem c4_equal_risk_weights (q d : ℚ) (hq : 2/5 ≤ q) (hd : d ≠ 0) :
    (update_portfolio (mkPortfolio 1000000)
        [scoreWith "A" q d, scoreWith "B" q d, scoreWith "C" q d]).allocations.map
        (fun pr => pr.2.weight)
      = [some (1/3), some (1/3), some (1/3)] := by
  have hfil : ([scoreWith "A" q d, scoreWith "B" q d, scoreWith "C" q d].filter
      (fun s => decide ((mkPortfolio 1000000).min_score_threshold ≤ s.overall_score)))
      = [scoreWith "A" q d, scoreWith "B" q d, scoreWith "C" q d] := by
    simp [mkPortfolio, scoreWith, List.filter, hq]
  have hne : ([scoreWith "A" q d, scoreWith "B" q d, scoreWith "C" q d].filter
      (fun s => decide ((mkPortfolio 1000000).min_score_threshold ≤ s.overall_score))) ≠ [] := by
    rw [hfil]
    exact List.cons_ne_nil _ _
  have hd3 : ∀ s ∈ [scoreWith "A" q d, scoreWith "B" q d, scoreWith "C" q d],
      s.performance_metrics.max_drawdown ≠ 0 := by
    intro s hs
    simp only [List.mem_cons, List.not_mem_nil, or_false] at hs
    rcases hs with rfl | rfl | rfl <;> exact hd
  rw [update_portfolio_weight_map _ _ hne, hfil,
    optimize_weights_clean _ (List.cons_ne_nil _ _) hd3,
    dictOfList_eq_self _ (by simp [scoreWith, List.map_map])]
  have habs : |d| ≠ 0 := abs_ne_zero.mpr hd
  simp only [scoreWith, List.map_map, List.map_cons, List.map_nil, Function.comp_apply,
    List.sum_cons, List.sum_nil, Option.some_inj]
  norm_num
  field_simp
  ring

/-- C4 (witness): the amended statement at drawdown 0.1 and overall score
0.5: three equally-risky qualifying strategies get weight 1/3 each. -/
theorem c4_equal_risk_weights_witness :
    (update_portfolio (mkPortfolio 1000000)
        [scoreWith "A" (1/2) (1/10), scoreWith "B" (1/2) (1/10),
         scoreWith "C" (1/2) (1/10)]).allocations.map (fun pr => pr.2.weight)
      = [some (1/3), some (1/3), some (1/3)] :=
  c4_equal_risk_weights (1/2) (1/10) (by norm_num) (by norm_num)

/-! ## Claims C8 and C9 -/

/-- The contributing strategies of `get_strategy_recommendation`: allocated
and emitting a non-zero signal. -/
def contributing (port : StrategyPortfolio) (strategies : List StratEntry) :
    List StratEntry :=
  strategies.filter (fun e => (port.allocations.lookup e.id).isSome && decide (e.signal ≠ 0))

/-- The (possibly NaN) portfolio weight an entry contributes. -/
def weightOf (port : StrategyPortfolio) (e : StratEntry) : Option ℚ :=
  match port.allocations.lookup e.id with
  | some alloc => alloc.weight
  | none => none

/-- `Σ weight` over the contributing strategies. -/
def specTotal (port : StrategyPortfolio) (strategies : List StratEntry) : Option ℚ :=
  osum ((contributing port strategies).map (weightOf port))

/-- `Σ signal·weight·confidence` over the contributing strategies (the
`getD 0` default is immaterial under the all-confidences-present
hypothesis of the claims below). -/
def specNumer (port : StrategyPortfolio) (strategies : List StratEntry) : Option ℚ :=
  osum ((contributing port strategies).map
    (fun e => omul (omulc (weightOf port e) e.signal) (some (e.confidence.getD 0))))

/-- `oadd` is associative. -/
theorem oadd_assoc (a b c : Option ℚ) : oadd (oadd a b) c = oadd a (oadd b c) := by
  cases a <;> cases b <;> cases c <;> simp [oadd, add_assoc]

/-- A defined `osum` forces every summand to be defined. -/
theorem osum_isSome_mem : ∀ {l : List (Option ℚ)} {t : ℚ}, osum l = some t →
    ∀ x ∈ l, ∃ q, x = some q
  | [], _, _, x, hx => by cases hx
  | a :: l, t, h, x, hx => by
    rw [osum] at h
    rcases oadd_eq_some h with ⟨p, s, hp, hs, rfl⟩
    rcases List.mem_cons.mp hx with rfl | hx'
    · exact ⟨p, hp⟩
    · exact osum_isSome_mem hs x hx'

/-- A list of defined values has a defined `osum`. -/
theorem osum_ex_some : ∀ {l : List (Option ℚ)}, (∀ x ∈ l, ∃ q, x = some q) →
    ∃ s, osum l = some s
  | [], _ => ⟨0, rfl⟩
  | a :: l, h => by
    rcases h a (List.mem_cons_self _ _) with ⟨q, rfl⟩
    rcases osum_ex_some (fun x hx => h x (List.mem_cons_of_mem _ hx)) with ⟨s, hs⟩
    exact ⟨q + s, by rw [osum, hs]; rfl⟩

/-- When no contributing strategy lacks `get_confidence`, the
recommendation loop completes and returns the contributing entries in
order together with the accumulated weight total. -/
theorem buildRecs_ok (port : StrategyPortfolio) :
    ∀ (l : List StratEntry) (recs : List (ℚ × Option ℚ × ℚ)) (total : Option ℚ),
      (∀ e ∈ contributing port l, e.confidence.isSome) →
      buildRecs port l recs total =
        .ok (recs ++ (contributing port l).map
            (fun e => (e.signal, weightOf port e, e.confidence.getD 0)),
          oadd total (osum ((contributing port l).map (weightOf port))))
  | [], recs, total, _ => by
    simp [buildRecs, contributing, osum]
    cases total
    · simp [oadd]
    · simp [oadd]
  | e :: l, recs, total, hconf => by
    by_cases hl : (port.allocations.lookup e.id).isSome
    · obtain ⟨alloc, ha⟩ := Option.isSome_iff_exists.mp hl
      by_cases hsig : e.signal ≠ 0
      · have hc : (contributing port (e :: l)) = e :: contributing port l := by
          simp [contributing, List.filter_cons, hl, hsig]
        have hcs : e.confidence.isSome := hconf e (by rw [hc]; exact List.mem_cons_self _ _)
        obtain ⟨c, hcc⟩ := Option.isSome_iff_exists.mp hcs
        have hconf' : ∀ x ∈ contributing port l, x.confidence.isSome := by
          intro x hx
          exact hconf x (by rw [hc]; exact List.mem_cons_of_mem _ hx)
        simp only [buildRecs, ha]
        rw [if_pos hsig]
        simp only [hcc]
        rw [buildRecs_ok port l (recs ++ [(e.signal, alloc.weight, c)])
          (oadd total alloc.weight) hconf']
        rw [hc]
        simp only [List.map_cons, osum, weightOf, ha, hcc]
        rw [List.append_cons, oadd_assoc]
        simp [Option.getD]
      · have hc : (contributing port (e :: l)) = contributing port l := by
          simp [contributing, List.filter_cons, hsig]
        have hconf' : ∀ x ∈ contributing port l, x.confidence.isSome := by
          intro x hx
          exact hconf x (by rw [hc]; exact hx)
        simp only [buildRecs, ha]
        rw [if_neg hsig, buildRecs_ok port l recs total hconf', hc]
    · have hln : port.allocations.lookup e.id = none := Option.not_isSome_iff_eq_none.mp hl
      have hc : (contributing port (e :: l)) = contributing port l := by
        simp [contributing, List.filter_cons, hln]
      have hconf' : ∀ x ∈ contributing port l, x.confidence.isSome := by
        intro x hx
        exact hconf x (by rw [hc]; exact hx)
      simp only [buildRecs, hln]
      rw [buildRecs_ok port l recs total hconf', hc]

/-- If some allocated entry has a non-zero signal but no `get_confidence`
capability, the loop raises `AttributeError`. -/
theorem buildRecs_error (port : StrategyPortfolio) :
    ∀ (l : List StratEntry) (recs : List (ℚ × Option ℚ × ℚ)) (total : Option ℚ),
      (∃ e ∈ l, (port.allocations.lookup e.id).isSome ∧ e.signal ≠ 0 ∧
        e.confidence = none) →
      buildRecs port l recs total = .error ()
  | [], _, _, hex => by simp at hex
  | f :: l, recs, total, hex => by
    by_cases hl : (port.allocations.lookup f.id).isSome
    · obtain ⟨alloc, ha⟩ := Option.isSome_iff_exists.mp hl
      by_cases hsig : f.signal ≠ 0
      · cases hcc : f.confidence with
        | none =>
          simp only [buildRecs, ha]
          rw [if_pos hsig]
          simp only [hcc]
        | some c =>
          simp only [buildRecs, ha]
          rw [if_pos hsig]
          simp only [hcc]
          apply buildRecs_error port l
          rcases hex with ⟨e, he, h1, h2, h3⟩
          rcases List.mem_cons.mp he with rfl | he'
          · rw [hcc] at h3; cases h3
          · exact ⟨e, he', h1, h2, h3⟩
      · simp only [buildRecs, ha]
        rw [if_neg hsig]
        apply buildRecs_error port l
        rcases hex with ⟨e, he, h1, h2, h3⟩
        rcases List.mem_cons.mp he with rfl | he'
        · exact absurd h2 hsig
        · exact ⟨e, he', h1, h2, h3⟩
    · have hln : port.allocations.lookup f.id = none := Option.not_isSome_iff_eq_none.mp hl
      simp only [buildRecs, hln]
      apply buildRecs_error port l
      rcases hex with ⟨e, he, h1, h2, h3⟩
      rcases List.mem_cons.mp he with rfl | he'
      · rw [hln] at h1; cases h1
      · exact ⟨e, he', h1, h2, h3⟩

/-- C8 (confirmed): `get_strategy_recommendation` returns HOLD with
confidence 0.0 when no allocated strategy emits a non-zero signal; and
whenever every contributing strategy provides a confidence and the
contributing weight total is a nonzero `t`, it computes
`weighted_signal = Σ(signal·weight·confidence) / t` and returns BUY above
0.2, SELL below −0.2, HOLD otherwise, with reported confidence
`|weighted_signal|`. -/
theorem c8_recommendation (strategies : List StratEntry) (port : StrategyPortfolio) :
    (contributing port strategies = [] →
      get_strategy_recommendation strategies port =
        { action := .HOLD, confidence := some 0 }) ∧
    (∀ t : ℚ, (∀ e ∈ contributing port strategies, e.confidence.isSome) →
      specTotal port strategies = some t → t ≠ 0 →
      ∃ n : ℚ, specNumer port strategies = some n ∧
        get_strategy_recommendation strategies port =
          { action := if 1/5 < n / t then .BUY
                      else if n / t < -(1/5) then .SELL else .HOLD,
            confidence := some |n / t| }) := by
  constructor
  · intro hempty
    rw [get_strategy_recommendation,
      buildRecs_ok port strategies [] (some 0) (by rw [hempty]; intro e he; cases he)]
    simp [hempty]
  · intro t hconf htot ht
    have hwts : ∀ x ∈ (contributing port strategies).map (weightOf port), ∃ q, x = some q := by
      intro x hx
      exact osum_isSome_mem htot x hx
    have hnum : ∃ n, specNumer port strategies = some n := by
      apply osum_ex_some
      intro x hx
      rcases List.mem_map.mp hx with ⟨e, he, rfl⟩
      rcases hwts _ (List.mem_map_of_mem _ he) with ⟨w, hw⟩
      exact ⟨w * e.signal * e.confidence.getD 0, by rw [hw]; rfl⟩
    rcases hnum with ⟨n, hn⟩
    refine ⟨n, hn, ?_⟩
    have hcne : contributing port strategies ≠ [] := by
      intro hc
      rw [specTotal, hc] at htot
      simp only [List.map_nil, osum] at htot
      exact ht (Option.some_inj.mp htot).symm
    have hmapne : (contributing port strategies).map
        (fun e => (e.signal, weightOf port e, e.confidence.getD 0)) ≠ [] := by
      simpa using hcne
    have htot' : oadd (some 0) (osum ((contributing port strategies).map (weightOf port)))
        = some t := by
      rw [specTotal] at htot
      rw [htot]
      simp [oadd]
    have hnum' : osum (((contributing port strategies).map
          (fun e => (e.signal, weightOf port e, e.confidence.getD 0))).map
        (fun r => omul (omulc r.2.1 r.1) (some r.2.2))) = some n := by
      rw [List.map_map, ← hn, specNumer]
      rfl
    simp only [get_strategy_recommendation,
      buildRecs_ok port strategies [] (some 0) hconf, List.nil_append]
    rw [if_neg hmapne]
    simp only [htot']
    rw [if_neg ht]
    simp only [hnum']
    by_cases h1 : 1/5 < n / t
    · rw [if_pos h1, if_pos h1]
    · rw [if_neg h1, if_neg h1]
      by_cases h2 : n / t < -(1/5)
      · rw [if_pos h2, if_pos h2]
      · rw [if_neg h2, if_neg h2]

/-- A portfolio holding strategies "A" (weight 0.6) and "B" (weight 0.4),
as in the spec's Scenario E. -/
def pE : StrategyPortfolio :=
  { initial_capital := 1000000, current_capital := some 1000000,
    allocations :=
      [("A", { strategy_id := "A", weight := some (6/10), max_allocation := some (1/4),
               current_allocation := some 600000, performance_metrics := sampleMetrics }),
       ("B", { strategy_id := "B", weight := some (4/10), max_allocation := some (1/4),
               current_allocation := some 400000, performance_metrics := sampleMetrics })],
    historical_performance := [], min_score_threshold := 2/5 }

/-- Scenario E: "A" signals +1 with confidence 0.8, "B" signals −1 with
confidence 0.5. -/
def sE : List StratEntry :=
  [{ id := "A", signal := 1, confidence := some (8/10) },
   { id := "B", signal := -1, confidence := some (5/10) }]

/-- C8 (witness): Scenario E evaluated concretely through the theorem:
`weighted_signal = (0.6·0.8·1 + 0.4·0.5·(−1)) / 1.0 = 0.28 > 0.2`, so the
recommendation is BUY with confidence 0.28. -/
theorem c8_recommendation_witness :
    get_strategy_recommendation sE pE = { action := .BUY, confidence := some (7/25) } := by
  have hBA : ("B" : String) ≠ "A" := by decide
  have hcontr : contributing pE sE = sE := by
    norm_num [contributing, pE, sE, List.filter, List.lookup, beq_eq_decide, hBA]
  have hconf : ∀ e ∈ contributing pE sE, e.confidence.isSome := by
    rw [hcontr]
    intro e he
    rcases List.mem_cons.mp he with rfl | he'
    · rfl
    · rcases List.mem_singleton.mp he' with rfl
      rfl
  have htot : specTotal pE sE = some 1 := by
    rw [specTotal, hcontr]
    norm_num [weightOf, pE, sE, osum, oadd, List.lookup, beq_eq_decide, hBA]
  obtain ⟨n, hn, hrec⟩ := (c8_recommendation sE pE).2 1 hconf htot one_ne_zero
  have hn2 : specNumer pE sE = some (7/25) := by
    rw [specNumer, hcontr]
    norm_num [weightOf, pE, sE, osum, oadd, omul, omulc, List.lookup, beq_eq_decide, hBA]
  rw [hn2, Option.some_inj] at hn
  rw [hrec, ← hn]
  norm_num

/-- C9 (counterexample): an allocated strategy with a non-zero signal but
no `get_confidence` attribute is *not* treated as confidence 1.0: the
unconditional `strategy.get_confidence()` call raises `AttributeError` and
the `except` block returns HOLD with confidence 0.0, whereas with
confidence 1.0 the same state would yield BUY with confidence 1.0. -/
theorem c9_counterexample :
    get_strategy_recommendation [{ id := "A", signal := 1, confidence := none }] pE =
        { action := .HOLD, confidence := some 0 } ∧
      get_strategy_recommendation [{ id := "A", signal := 1, confidence := some 1 }] pE =
        { action := .BUY, confidence := some 1 } := by
  constructor
  · norm_num [get_strategy_recommendation, buildRecs, pE, List.lookup]
  · norm_num [get_strategy_recommendation, buildRecs, pE, List.lookup, osum, oadd, omul,
      omulc]

/-- C9 (amended): whenever some allocated strategy emits a non-zero signal
but lacks the `get_confidence` capability, the whole recommendation
degrades to HOLD with confidence 0.0 (the `AttributeError` is caught by
the `except` block); the strategy does not contribute with a default
confidence of 1.0. -/
theorem c9_missing_confidence (strategies : List StratEntry) (port : StrategyPortfolio)
    (e : StratEntry) (he : e ∈ strategies)
    (halloc : (port.allocations.lookup e.id).isSome)
    (hsig : e.signal ≠ 0) (hconf : e.confidence = none) :
    get_strategy_recommendation strategies port =
      { action := .HOLD, confidence := some 0 } := by
  simp only [get_strategy_recommendation,
    buildRecs_error port strategies [] (some 0) ⟨e, he, halloc, hsig, hconf⟩]

/-- C9 (witness): the amended statement at the concrete Scenario-E
portfolio with a single allocated, signalling, confidence-less strategy. -/
theorem c9_missing_confidence_witness :
    get_strategy_recommendation [{ id := "A", signal := 1, confidence := none }] pE =
      { action := .HOLD, confidence := some 0 } :=
  c9_missing_confidence _ pE { id := "A", signal := 1, confidence := none }
    (List.mem_singleton.mpr rfl) (by simp [pE]) (by norm_num) rfl

/-! ## Claim C10 -/

/-- An orchestrator state with strategy "A" registered, its latest cached
evaluator score 0.5 (≥ 0.4), and the portfolio refreshed once by
`update_portfolio` (so "A" is allocated with weight 1). -/
def alsA : ALSystem :=
  als_update_portfolio
    { strategies := ["A"], strategy_scores := [("A", scoreA)],
      portfolio := mkPortfolio 1000000 }

/-- C10 (confirmed): `retire_strategy` never touches the evaluator's cached
score map, and in the reachable state `alsA` (latest cached score of "A" is
0.5 ≥ 0.4) retiring "A" removes it from the strategy registry but the
`update_portfolio` refresh at the end of `retire_strategy` re-inserts "A"
into the allocation map with positive weight 1 — retirement is not
terminal for the allocation map. -/
theorem c10_retire_not_terminal :
    (∀ (s : ALSystem) (sid : String),
      (retire_strategy s sid).strategy_scores = s.strategy_scores) ∧
    ("A" ∉ (retire_strategy alsA "A").strategies ∧
      (retire_strategy alsA "A").portfolio.allocations.map (fun pr => (pr.1, pr.2.weight))
        = [("A", some 1)] ∧ (0 : ℚ) < 1) := by
  refine ⟨?_, ?_, ?_, by norm_num⟩
  · intro s sid
    unfold retire_strategy
    by_cases hm : sid ∈ s.strategies
    · rw [if_pos hm]
      rfl
    · rw [if_neg hm]
  · norm_num [retire_strategy, als_update_portfolio, alsA, mkPortfolio, scoreA,
      sampleMetrics, update_portfolio, optimize_weights, dictOfList, dictInsert,
      record_portfolio_state, adjust_allocation, osum, oadd, omul, omulc, pymin,
      List.lookup, List.filter, List.find?, List.erase, beq_eq_decide, List.cons_ne_nil]
  · norm_num [retire_strategy, als_update_portfolio, alsA, mkPortfolio, scoreA,
      sampleMetrics, update_portfolio, optimize_weights, dictOfList, dictInsert,
      record_portfolio_state, adjust_allocation, osum, oadd, omul, omulc, pymin,
      List.lookup, List.filter, List.find?, List.erase, beq_eq_decide, List.cons_ne_nil]

end Neural
